import Mathlib

/-!
Verification of the Doc-Data-Execution webhook/document-processing service.

The JavaScript source is shallowly embedded: pure helpers become Lean
functions on `List Char` / `String`, stateful code becomes explicit state
passing, fallible code returns `Except String _`, and the single-threaded
JS event loop's interleaving is modelled as a labelled transition system.
Strings manipulated by the helpers are modelled as their character lists;
`fs`-level effects (temp files, `statSync`) are modelled as explicit data.
-/

namespace DocData

/-! ### Characters that the JS helpers test for

`Char.ofNat 96` is the backtick, `Char.ofNat 123` / `Char.ofNat 125` are
the opening and closing curly braces. -/

def bt : Char := Char.ofNat 96

def lbrace : Char := Char.ofNat 123

def rbrace : Char := Char.ofNat 125

def isWs (c : Char) : Bool := c.isWhitespace

/-! ### utils/helpers.js — parseFileRecordString (lines 82-93)

`inputString.split(',')` splits on every comma, keeping empty segments,
and `''.split(',')` is `['']`; `splitComma` reproduces that on character
lists. -/

def splitComma : List Char → List (List Char)
  | [] => [[]]
  | c :: rest =>
    match splitComma rest with
    | [] => if c = ',' then [[], []] else [[c]]
    | h :: t => if c = ',' then [] :: h :: t else (c :: h) :: t

/-- JS `String.prototype.trim`: drop leading and trailing whitespace. -/
def trimChars (cs : List Char) : List Char :=
  ((cs.dropWhile isWs).reverse.dropWhile isWs).reverse

/-- utils/helpers.js lines 82-93: split on ',', require exactly 3 parts,
trim each, require each non-empty (`!fileId` is the JS falsy test, which
for strings means emptiness); throwing is modelled as `Except.error`.
The outer try/catch in helpers.js rethrows a wrapped error, so the
accepted/thrown behaviour is unchanged by it. -/
def parseFileRecordString (inputString : String) : Except String (String × String × String) :=
  match (splitComma inputString.data).map trimChars with
  | [fileId, objectTypeId, recordId] =>
    if fileId = [] ∨ objectTypeId = [] ∨ recordId = [] then
      Except.error "All parts must be non-empty"
    else
      Except.ok (String.mk fileId, String.mk objectTypeId, String.mk recordId)
  | _ => Except.error "Invalid input format"

/-! ### services/hubspot.js (src/unnamed/part_000) — updateProperty and updateErrorLog

The CRM PATCH is abstracted by the pair `(responseOk, status)` of the
upstream `fetch` response; `updateProperty` throws exactly when the
response is not ok (line 30).  `updateErrorLog` (lines 77-87) builds the
error payload and awaits `updateProperty` with no try/catch around it. -/

def updateProperty (objectType objectId propertyName : String)
    (responseOk : Bool) (status : Nat) : Except String Unit :=
  if responseOk then Except.ok ()
  else Except.error ("HubSpot update failed: " ++ toString status)

def updateErrorLog (objectTypeId recordId errorMessage : String)
    (responseOk : Bool) (status : Nat) : Except String Unit :=
  match updateProperty objectTypeId recordId "error_log" responseOk status with
  | Except.error e => Except.error e
  | Except.ok _ => Except.ok ()

/-! ### SimpleQueue (src/unnamed/part_007, lines 32-141)

A job as stored in `this.queue` / `this.jobs`.  `add` (lines 39-61)
creates it with `attempts = 0` and `maxAttempts = 3`. -/

inductive JobStatus where
  | queued
  | processing
  | completed
  | failed
deriving DecidableEq

structure Job where
  id : String
  attempts : Nat
  maxAttempts : Nat
  status : JobStatus
  error : Option String
deriving DecidableEq

/-- A fresh job, as `SimpleQueue.add` builds it (part_007 lines 40-48). -/
def mkJob (id : String) : Job :=
  { id := id, attempts := 0, maxAttempts := 3, status := JobStatus.queued, error := none }

/-- One iteration of the `SimpleQueue.processQueue` worker loop
(part_007 lines 71-107) on a non-empty queue `job :: rest`, where
`outcome` is the result of `await processWebhookData(job.data)`:
mark processing, increment `attempts`, run; on success mark completed and
shift; on failure either mark failed and shift (attempts exhausted) or
shift and push to the tail.  Returns the remaining queue and the job
record as it is left in `this.jobs`. -/
def processQueueIteration (outcome : Except String Unit) (job : Job) (rest : List Job) :
    List Job × Job :=
  let j1 := { job with status := JobStatus.processing, attempts := job.attempts + 1 }
  match outcome with
  | Except.ok _ => (rest, { j1 with status := JobStatus.completed })
  | Except.error msg =>
    if j1.attempts ≥ j1.maxAttempts then
      (rest, { j1 with status := JobStatus.failed, error := some msg })
    else
      (rest ++ [j1], j1)

/-! ### MemoryQueue (src/unnamed/part_002, lines 2-99)

The other cited worker loop.  A queue item (lines 13-21) carries no
attempts counter and no `maxAttempts`; the timestamp fields are real
time and omitted. -/

structure QueueItem where
  id : String
  status : JobStatus
  error : Option String
deriving DecidableEq

/-- A fresh queue item, as `MemoryQueue.enqueue` builds it (part_002
lines 11-23). -/
def enqueueItem (id : String) : QueueItem :=
  { id := id, status := JobStatus.queued, error := none }

/-- One iteration of the `MemoryQueue.processQueue` worker loop
(part_002 lines 41-64) on a non-empty queue `item :: rest`:
`this.queue.shift()` removes the head before running it, the item is
marked processing, and `await queueItem.task()` either completes it or —
in the catch block at lines 57-64 — marks it `'failed'` with the error
message at once; there is no retry and the item is never re-enqueued. -/
def memoryQueueIteration (outcome : Except String Unit) (item : QueueItem)
    (rest : List QueueItem) : List QueueItem × QueueItem :=
  let i1 := { item with status := JobStatus.processing }
  match outcome with
  | Except.ok _ => (rest, { i1 with status := JobStatus.completed })
  | Except.error msg => (rest, { i1 with status := JobStatus.failed, error := some msg })

/-! ### Worker-loop re-entrancy guard (C2)

`SimpleQueue.processQueue` (part_007 lines 63-115) and
`MemoryQueue.processQueue` (part_002 lines 35-75) share the same shape:

```
if (this.processing || this.queue.length === 0) return;   // guard
this.processing = true;                                    // gate
while (...) { ... await task ... }                         // loop
this.processing = false;                                   // release
```

JavaScript is single-threaded: control can only change hands at an
`await`.  There is no `await` between the guard check and the gate, so
check-and-set is one atomic step.  The system state tracks the flag and
how many `processQueue` invocations sit inside the loop, split into
those between tasks (`idleCalls`) and those awaiting a task
(`execCalls`).  Each transition below is one atomic segment of the JS
code between suspension points. -/

structure QueueState where
  processing : Bool
  idleCalls : Nat
  execCalls : Nat
deriving DecidableEq

inductive QueueStep : QueueState → QueueState → Prop
  /-- A call reaches the guard while the flag is set: it returns at once,
  taking no task (part_007 line 64, part_002 line 36). -/
  | bounce (s : QueueState) (h : s.processing = true) : QueueStep s s
  /-- A call reaches the guard while the flag is clear: it sets the flag
  and enters the loop, in one atomic segment (lines 64-68 / 36-38). -/
  | enter (s : QueueState) (h : s.processing = false) :
      QueueStep s { processing := true, idleCalls := s.idleCalls + 1, execCalls := s.execCalls }
  /-- A call inside the loop pops a task and begins `await`ing it
  (part_007 lines 72-81, part_002 lines 42-51). -/
  | start (s : QueueState) (h : 1 ≤ s.idleCalls) :
      QueueStep s { s with idleCalls := s.idleCalls - 1, execCalls := s.execCalls + 1 }
  /-- The awaited task resolves; the call is back between tasks. -/
  | finish (s : QueueState) (h : 1 ≤ s.execCalls) :
      QueueStep s { s with idleCalls := s.idleCalls + 1, execCalls := s.execCalls - 1 }
  /-- The loop exhausts the queue: the call clears the flag and leaves
  (part_007 line 113, part_002 line 67). -/
  | exitLoop (s : QueueState) (h : 1 ≤ s.idleCalls) :
      QueueStep s { processing := false, idleCalls := s.idleCalls - 1, execCalls := s.execCalls }

/-- States reachable from the initial state of the queue module
(`processing = false`, no call inside the loop). -/
inductive QueueReachable : QueueState → Prop
  | init : QueueReachable { processing := false, idleCalls := 0, execCalls := 0 }
  | step {s s' : QueueState} : QueueReachable s → QueueStep s s' → QueueReachable s'

/-! ### Attachment batching — sendEmailWithAttachments

`Attachment.statSize` records the outcome of `fs.statSync(path).size`:
`none` models the stat call throwing (missing file), `some n` a readable
file of `n` bytes. -/

structure Attachment where
  filename : String
  statSize : Option Nat
deriving DecidableEq

/-- The chunking loop of src/services/email.js lines 19-38: greedy
size-bounded batching; a failing `statSync` is caught, logged and the
loop continues; there is no oversize check, and the final non-empty
chunk is flushed. -/
def emailChunksGo (maxSize : Nat) (chunks : List (List Attachment))
    (currentChunk : List Attachment) (currentSize : Nat) :
    List Attachment → List (List Attachment)
  | [] => if currentChunk = [] then chunks else chunks ++ [currentChunk]
  | attachment :: rest =>
    match attachment.statSize with
    | none => emailChunksGo maxSize chunks currentChunk currentSize rest
    | some fileSize =>
      if currentSize + fileSize > maxSize ∧ currentChunk ≠ [] then
        emailChunksGo maxSize (chunks ++ [currentChunk]) [attachment] fileSize rest
      else
        emailChunksGo maxSize chunks (currentChunk ++ [attachment]) (currentSize + fileSize) rest

def emailChunks (attachments : List Attachment) (maxSize : Nat) : List (List Attachment) :=
  emailChunksGo maxSize [] [] 0 attachments

/-- src/services/email.js line 11: `MAX_SIZE_PER_EMAIL = 4 * 1024 * 1024`. -/
def MAX_SIZE_PER_EMAIL : Nat := 4 * 1024 * 1024

/-- The chunking loop of src/unnamed/part_004 lines 25-51 (same shape in
part_003 lines 67-87): identical to the src/services/email.js loop
except that a single file larger than the ceiling is skipped
(`if (fileSize > MAX_SIZE_PER_EMAIL) continue`). -/
def emailChunksSkipGo (maxSize : Nat) (chunks : List (List Attachment))
    (currentChunk : List Attachment) (currentSize : Nat) :
    List Attachment → List (List Attachment)
  | [] => if currentChunk = [] then chunks else chunks ++ [currentChunk]
  | attachment :: rest =>
    match attachment.statSize with
    | none => emailChunksSkipGo maxSize chunks currentChunk currentSize rest
    | some fileSize =>
      if fileSize > maxSize then
        emailChunksSkipGo maxSize chunks currentChunk currentSize rest
      else if currentSize + fileSize > maxSize ∧ currentChunk ≠ [] then
        emailChunksSkipGo maxSize (chunks ++ [currentChunk]) [attachment] fileSize rest
      else
        emailChunksSkipGo maxSize chunks (currentChunk ++ [attachment]) (currentSize + fileSize) rest

def emailChunksSkip (attachments : List Attachment) (maxSize : Nat) : List (List Attachment) :=
  emailChunksSkipGo maxSize [] [] 0 attachments

/-- Total bytes of a chunk, as the loop accounts them. -/
def chunkBytes (chunk : List Attachment) : Nat :=
  (chunk.map (fun a => a.statSize.getD 0)).sum

/-! ### updateIndividualProperties (src/unnamed/part_000 lines 89-112)

The extracted record has the fixed nullable-string schema; `none`
models a JS `null`/`undefined` field. -/

structure ExtractedData where
  firstName : Option String
  lastName : Option String
  streetAddress : Option String
  dateOfBirth : Option String
  nationality : Option String
  workPermitDate : Option String
  workPermitType : Option String
deriving DecidableEq

/-- JS truthiness of a nullable string: `null`, `undefined` and `''`
are falsy, every other string truthy. -/
def jsTruthy : Option String → Bool
  | none => false
  | some s => s ≠ ""

/-- Model of part_000 line 90: `[firstName, lastName].filter(Boolean).join(' ')`. -/
def fullNameOf (d : ExtractedData) : String :=
  String.intercalate " " (([d.firstName, d.lastName].filterMap id).filter (fun s => s ≠ ""))

/-- part_000 lines 91-98: the ordered field-to-property table, combined
full name first. -/
def propertiesToUpdate (d : ExtractedData) : List (String × Option String) :=
  [("extracted_full_name", some (fullNameOf d)),
   ("extracted_address", d.streetAddress),
   ("extracted_dob", d.dateOfBirth),
   ("extracted_nationality", d.nationality),
   ("extracted_work_permit_date", d.workPermitDate),
   ("extracted_work_permit_type", d.workPermitType)]

structure FieldUpdate where
  property : String
  success : Bool
  error : Option String
deriving DecidableEq

/-- part_000 lines 100-111: iterate the table; `if (!propertyValue)
continue` skips falsy values (so they are neither written nor
reported); otherwise `updateProperty` is awaited — `writeResult name`
gives `none` on success and `some msg` for a thrown error, which is
caught and reported per field.  Returns the `updates` report and the
property names for which a CRM write was issued, in order. -/
def updatePropertiesGo (writeResult : String → Option String) :
    List (String × Option String) → List FieldUpdate × List String
  | [] => ([], [])
  | (propertyName, propertyValue) :: rest =>
    let (updates, writes) := updatePropertiesGo writeResult rest
    if jsTruthy propertyValue then
      match writeResult propertyName with
      | none =>
        ({ property := propertyName, success := true, error := none } :: updates,
          propertyName :: writes)
      | some msg =>
        ({ property := propertyName, success := false, error := some msg } :: updates,
          propertyName :: writes)
    else
      (updates, writes)

def updateIndividualProperties (writeResult : String → Option String) (d : ExtractedData) :
    List FieldUpdate × List String :=
  updatePropertiesGo writeResult (propertiesToUpdate d)

/-! ### A model of `JSON.parse`

The responses handled by the adapter are ordinary JSON values; we model
`JSON.parse` by a fuel-indexed recursive-descent parser over the JSON
fragment without escape sequences inside strings and with integer
numerals (a parse of a text outside this fragment fails).  `jsonParse`
succeeds exactly when the whole text (up to surrounding whitespace) is
one value of the fragment. -/

inductive Json where
  | null
  | bool (b : Bool)
  | num (n : Int)
  | str (s : String)
  | arr (elems : List Json)
  | obj (fields : List (String × Json))

def skipWs (cs : List Char) : List Char := cs.dropWhile isWs

/-- String body after the opening quote: plain characters up to the
closing quote; escape sequences are outside the modelled fragment. -/
def parseStrBody : List Char → Option (String × List Char)
  | [] => none
  | c :: rest =>
    if c = '"' then some ("", rest)
    else if c = '\\' then none
    else
      match parseStrBody rest with
      | some (s, r) => some (String.mk (c :: s.data), r)
      | none => none

def parseNumBody (cs : List Char) : Option (Int × List Char) :=
  let digits := cs.takeWhile Char.isDigit
  let rest := cs.dropWhile Char.isDigit
  if digits = [] then none
  else some (Int.ofNat (String.mk digits).toNat!, rest)

mutual

def parseVal : Nat → List Char → Option (Json × List Char)
  | 0, _ => none
  | Nat.succ fuel, cs =>
    match skipWs cs with
    | [] => none
    | c :: rest =>
      if c = '"' then
        match parseStrBody rest with
        | some (s, r) => some (Json.str s, r)
        | none => none
      else if c = '[' then
        match skipWs rest with
        | ']' :: r => some (Json.arr [], r)
        | _ => match parseArrItems fuel (skipWs rest) with
          | some (xs, r) => some (Json.arr xs, r)
          | none => none
      else if c = lbrace then
        match skipWs rest with
        | d :: r => if d = rbrace then some (Json.obj [], r)
            else match parseObjItems fuel (skipWs rest) with
              | some (kvs, r') => some (Json.obj kvs, r')
              | none => none
        | [] => none
      else if c = 'n' then
        match rest with
        | 'u' :: 'l' :: 'l' :: r => some (Json.null, r)
        | _ => none
      else if c = 't' then
        match rest with
        | 'r' :: 'u' :: 'e' :: r => some (Json.bool true, r)
        | _ => none
      else if c = 'f' then
        match rest with
        | 'a' :: 'l' :: 's' :: 'e' :: r => some (Json.bool false, r)
        | _ => none
      else if c = '-' then
        match parseNumBody rest with
        | some (n, r) => some (Json.num (-n), r)
        | none => none
      else if c.isDigit then
        match parseNumBody (c :: rest) with
        | some (n, r) => some (Json.num n, r)
        | none => none
      else none

def parseArrItems : Nat → List Char → Option (List Json × List Char)
  | 0, _ => none
  | Nat.succ fuel, cs =>
    match parseVal fuel cs with
    | none => none
    | some (v, r) =>
      match skipWs r with
      | ']' :: r' => some ([v], r')
      | ',' :: r' =>
        match parseArrItems fuel r' with
        | some (xs, r'') => some (v :: xs, r'')
        | none => none
      | _ => none

def parseObjItems : Nat → List Char → Option (List (String × Json) × List Char)
  | 0, _ => none
  | Nat.succ fuel, cs =>
    match skipWs cs with
    | c :: rest =>
      if c = '"' then
        match parseStrBody rest with
        | some (k, r) =>
          match skipWs r with
          | ':' :: r' =>
            match parseVal fuel r' with
            | some (v, r'') =>
              match skipWs r'' with
              | c' :: r3 =>
                if c' = rbrace then some ([(k, v)], r3)
                else if c' = ',' then
                  match parseObjItems fuel r3 with
                  | some (kvs, r4) => some ((k, v) :: kvs, r4)
                  | none => none
                else none
              | [] => none
            | none => none
          | _ => none
        | none => none
      else none
    | [] => none

end

/-- Model of `JSON.parse`: parse one value and require only whitespace to
remain. -/
def jsonParse (s : String) : Option Json :=
  match parseVal (2 * s.data.length + 2) s.data with
  | some (v, rest) => if skipWs rest = [] then some v else none
  | none => none

/-! ### cleanJSONResponse

part_007 lines 161-164 run two global regex replacements,
`.replace(/```json\s*/g, '')` then `.replace(/```\s*/g, '')`, and trim.
`replaceFence p ps fuel cs` removes every non-overlapping left-to-right
occurrence of the pattern `p :: ps` together with the whitespace that
follows it; the fuel argument (instantiated with the text length, which
always suffices) keeps the recursion structural so that terms reduce. -/

def startsWithChars : List Char → List Char → Bool
  | [], _ => true
  | _ :: _, [] => false
  | p :: ps, c :: cs => p = c && startsWithChars ps cs

def replaceFence (p : Char) (ps : List Char) : Nat → List Char → List Char
  | 0, cs => cs
  | _ + 1, [] => []
  | fuel + 1, c :: cs =>
    if startsWithChars (p :: ps) (c :: cs) then
      replaceFence p ps fuel ((cs.drop ps.length).dropWhile isWs)
    else
      c :: replaceFence p ps fuel cs

/-- The two fence-stripping replacements, in the order the source runs
them. -/
def stripFences (cs : List Char) : List Char :=
  let step1 := replaceFence bt [bt, bt, 'j', 's', 'o', 'n'] cs.length cs
  replaceFence bt [bt, bt] step1.length step1

def headIs (c : Char) : List Char → Bool
  | [] => false
  | x :: _ => x = c

def lastIs (c : Char) (cs : List Char) : Bool := headIs c cs.reverse

/-- Model of `cleaned.match(/\{[\s\S]*\}/)`: the greedy span from the first
opening brace to the last closing brace after it, when such a pair
exists. -/
def extractBraces (cs : List Char) : Option (List Char) :=
  match ((cs.dropWhile (· ≠ lbrace)).reverse.dropWhile (· ≠ rbrace)).reverse with
  | [] => none
  | [_] => none
  | c1 :: c2 :: rest => some (c1 :: c2 :: rest)

/-- part_007 lines 153-176: throw on the empty response, strip fences
and trim, and if the result is not brace-delimited substitute the
extracted brace span when present. -/
def cleanJSONResponse (responseText : String) : Except String String :=
  if responseText = "" then Except.error "Empty response from AI model"
  else
    let cleaned := trimChars (stripFences responseText.data)
    if ¬(headIs lbrace cleaned = true ∧ lastIs rbrace cleaned = true) then
      match extractBraces cleaned with
      | some m => Except.ok (String.mk m)
      | none => Except.ok (String.mk cleaned)
    else Except.ok (String.mk cleaned)

/-- The parse step of `analyzeImage` (part_007 lines 288-296): the try
block runs `cleanJSONResponse` then `JSON.parse`; any throw is caught
and re-raised as the invalid-JSON extraction error. -/
def parseModelResponse (responseText : String) : Except String Json :=
  match cleanJSONResponse responseText with
  | Except.error _ => Except.error "Invalid JSON response from image analysis"
  | Except.ok cleaned =>
    match jsonParse cleaned with
    | some v => Except.ok v
    | none => Except.error "Invalid JSON response from image analysis"

/-- The spec's description of the parsing attempts, stated from its
words for comparison with the code: "(a) direct parse, (b) strip fences
and retry, (c) regex-extract the outermost `{...}` span and retry;
exhausting all three ⇒ fail", and an empty response fails. -/
def specThreeStage (responseText : String) : Option Json :=
  if responseText = "" then none
  else
    match jsonParse responseText with
    | some v => some v
    | none =>
      let stripped := trimChars (stripFences responseText.data)
      match jsonParse (String.mk stripped) with
      | some v => some v
      | none =>
        match extractBraces stripped with
        | some m => jsonParse (String.mk m)
        | none => none

/-- helpers.js lines 46-50 (the variant used by services/analysis.js =
part_001): strip fences, trim, and always substitute the brace span
when present; never throws by itself. -/
def cleanJSONResponseHelpers (responseText : String) : String :=
  let cleaned := trimChars (stripFences responseText.data)
  match extractBraces cleaned with
  | some m => String.mk m
  | none => String.mk cleaned

/-! ### analyzePDF (src/unnamed/part_001 lines 32-58) and the temp file

The local filesystem is the list of existing paths.  `downloadFile`
(helpers.js lines 52-57) writes `outputPath` only if the transport call
succeeds; `cleanupFile` (helpers.js lines 74-80) unlinks the path if it
exists and swallows any error.  The extraction-service calls are
abstracted by their outcomes in `PdfEnv`. -/

structure PdfEnv where
  /-- Whether `axios.get(url, ...)` succeeds. -/
  downloadOk : Bool
  /-- Whether `client.files.create(...)` succeeds. -/
  uploadOk : Bool
  /-- Outcome of `client.chat.completions.create(...)`: the response
  content, or a thrown transport/model error. -/
  chatResult : Except String String

def cleanupFile (filePath : String) (fs : List String) : List String :=
  if filePath ∈ fs then fs.filter (· ≠ filePath) else fs

def downloadFile (ok : Bool) (outputPath : String) (fs : List String) :
    Except String (List String) :=
  if ok then Except.ok (outputPath :: fs) else Except.error "download failed"

/-- The try-block body of `analyzePDF`: download to the temp path,
upload, call the model, `JSON.parse(cleanJSONResponse(...))`.  Returns
the outcome together with the filesystem at the exit point. -/
def analyzePDFBody (env : PdfEnv) (tempPath : String) (fs : List String) :
    Except String Json × List String :=
  match downloadFile env.downloadOk tempPath fs with
  | Except.error e => (Except.error e, fs)
  | Except.ok fs1 =>
    if env.uploadOk then
      match env.chatResult with
      | Except.error e => (Except.error e, fs1)
      | Except.ok content =>
        match jsonParse (cleanJSONResponseHelpers content) with
        | some v => (Except.ok v, fs1)
        | none => (Except.error "JSON.parse failed", fs1)
    else (Except.error "upload failed", fs1)

/-- Model of `analyzePDF`: the body inside `try`, with `cleanupFile(tempPath)` in
the `finally` clause running on every exit path. -/
def analyzePDF (env : PdfEnv) (tempPath : String) (fs : List String) :
    Except String Json × List String :=
  let result := analyzePDFBody env tempPath fs
  (result.1, cleanupFile tempPath result.2)

/-! ### processWebhookData (src/server.js lines 623-655)

The collaborators reached by the pipeline are abstracted by their
outcomes in `OrchEnv`; the returned trace lists which collaborators were
invoked, in order. -/

structure InboundEvent where
  objectId : Nat
  propertyName : String
  /-- The value `none` models an absent (`undefined`) `propertyValue`. -/
  propertyValue : Option String
  subscriptionType : String

inductive CollabCall where
  | getSignedFileUrl
  | analyzeImageCall
  | analyzePDFCall
  | updateErrorLogCall
  | updatePropertyCall
  | updateIndividualPropertiesCall
deriving DecidableEq

structure OrchEnv where
  /-- Outcome of `hubspot.getSignedFileUrl(fileId)`: the signed URL or a throw. -/
  signedUrlResult : Except String String
  /-- Model of `utils.getFileType(documentUrl)` — a pure collaborator returning
  "image", "pdf" or "unknown" from the URL's path extension. -/
  fileTypeOf : String → String
  /-- Outcome of `analysis.analyzeImage` / `analysis.analyzePDF`:
  extracted data or a thrown extraction error. -/
  analyzeResult : Except String ExtractedData
  /-- The `updateErrorLog` CRM write succeeds (it is awaited with no
  try/catch around it, so its failure propagates). -/
  errorLogOk : Bool
  /-- The two `updateProperty` persistence writes succeed. -/
  persistOk : Bool

structure WebhookOutcome where
  shouldReturn204 : Bool
  success : Bool
  message : String
deriving DecidableEq

/-- server.js lines 623-655, with the collaborator-call trace. -/
def processWebhookData (env : OrchEnv) (webhookData : List InboundEvent) :
    Except String WebhookOutcome × List CollabCall :=
  match webhookData.head? with
  | none =>
    -- `webhookData[0]` is undefined, so `!event?.propertyValue` holds
    (Except.ok { shouldReturn204 := true, success := false, message := "No propertyValue" }, [])
  | some event =>
    if jsTruthy event.propertyValue = false then
      (Except.ok { shouldReturn204 := true, success := false, message := "No propertyValue" }, [])
    else
      match parseFileRecordString (event.propertyValue.getD "") with
      | Except.error e => (Except.error e, [])
      | Except.ok (fileId, objectTypeId, recordId) =>
        match env.signedUrlResult with
        | Except.error e => (Except.error e, [CollabCall.getSignedFileUrl])
        | Except.ok documentUrl =>
          let fileType := env.fileTypeOf documentUrl
          if fileType = "unknown" then
            (Except.error "Unsupported file type", [CollabCall.getSignedFileUrl])
          else
            let analyzeCall :=
              if fileType = "image" then CollabCall.analyzeImageCall else CollabCall.analyzePDFCall
            match env.analyzeResult with
            | Except.error _ =>
              -- catch: updateErrorLog, then return the soft failure;
              -- a failing updateErrorLog itself propagates (no catch)
              if env.errorLogOk then
                (Except.ok { shouldReturn204 := true, success := false, message := "Analysis failed" },
                  [CollabCall.getSignedFileUrl, analyzeCall, CollabCall.updateErrorLogCall])
              else
                (Except.error "HubSpot update failed: 500",
                  [CollabCall.getSignedFileUrl, analyzeCall, CollabCall.updateErrorLogCall])
            | Except.ok _ =>
              let okOutcome : WebhookOutcome :=
                { shouldReturn204 := false, success := true,
                  message := "Document analyzed and HubSpot updated successfully" }
              if env.persistOk then
                (Except.ok okOutcome,
                  [CollabCall.getSignedFileUrl, analyzeCall, CollabCall.updatePropertyCall,
                    CollabCall.updateIndividualPropertiesCall])
              else
                (Except.error "HubSpot update failed: 500",
                  [CollabCall.getSignedFileUrl, analyzeCall, CollabCall.updatePropertyCall])

/-- The value of the adapter's parse step seen by its caller: the parsed
object, or the extraction error thrown after a failed parse. -/
def exceptOfParse (o : Option Json) : Except String Json :=
  match o with
  | some v => Except.ok v
  | none => Except.error "Invalid JSON response from image analysis"

/-- No backtick (the fence character) occurs in the text. -/
def btFree (cs : List Char) : Prop := ∀ c ∈ cs, c ≠ bt

/-- No curly brace occurs in the text. -/
def braceFree (cs : List Char) : Prop := ∀ c ∈ cs, c ≠ lbrace ∧ c ≠ rbrace

/-! ## Theorems -/

/-- C8: `parseFileRecordString` accepts exactly those strings whose split
on ',' has exactly 3 parts, each non-empty after trimming, and then
returns the three trimmed parts in order; every other input throws. -/
theorem parseFileRecordString_spec (s : String) :
    (∃ f o r, parseFileRecordString s = Except.ok (f, o, r) ∧
      [f, o, r] = (splitComma s.data).map (fun p => String.mk (trimChars p))) ↔
    ((splitComma s.data).length = 3 ∧ ∀ p ∈ splitComma s.data, trimChars p ≠ []) := by
  rcases hsplit : splitComma s.data with _ | ⟨a, _ | ⟨b, _ | ⟨c, _ | ⟨d, t⟩⟩⟩⟩ <;>
    simp [parseFileRecordString, hsplit]
  by_cases h : trimChars a = [] ∨ trimChars b = [] ∨ trimChars c = []
  · rw [if_pos h]
    constructor
    · rintro ⟨f, o, r, hok, _⟩
      simp at hok
    · rintro ⟨ha, hb, hc⟩
      rcases h with h | h | h <;> simp_all
  · rw [if_neg h]
    push_neg at h
    constructor
    · intro _
      exact ⟨h.1, h.2.1, h.2.2⟩
    · intro _
      exact ⟨_, _, _, rfl, rfl, rfl, rfl⟩

/-- C4 counterexample: a failing CRM write makes `updateErrorLog` itself
raise — it is not swallowed. -/
theorem updateErrorLog_raises :
    updateErrorLog "0-1" "42" "boom" false 500 = Except.error "HubSpot update failed: 500" := by
  rfl

/-- C4 (amended): `updateErrorLog` propagates the underlying CRM
property write's failure — it raises exactly when the PATCH response is
not ok. -/
theorem updateErrorLog_propagates (objectTypeId recordId errorMessage : String)
    (responseOk : Bool) (status : Nat) :
    (∃ e, updateErrorLog objectTypeId recordId errorMessage responseOk status = Except.error e) ↔
      responseOk = false := by
  cases responseOk <;> simp [updateErrorLog, updateProperty]

/-- Helper: in every `SimpleQueue` worker-loop iteration, a normal
return marks the job completed and removes it from the head; a throw
leaves the attempts counter incremented, and either re-appends the job
at the tail (attempts still below `maxAttempts`) or removes it and
marks it permanently failed with the thrown message (attempts reached
`maxAttempts`); that queue creates every job with `maxAttempts = 3`. -/
theorem simpleQueue_iteration_spec (job : Job) (rest : List Job) :
    ((processQueueIteration (Except.ok ()) job rest).1 = rest ∧
      (processQueueIteration (Except.ok ()) job rest).2.status = JobStatus.completed) ∧
    (∀ msg, (processQueueIteration (Except.error msg) job rest).2.attempts = job.attempts + 1) ∧
    (∀ msg, job.attempts + 1 < job.maxAttempts →
      (processQueueIteration (Except.error msg) job rest).1 =
        rest ++ [(processQueueIteration (Except.error msg) job rest).2] ∧
      (processQueueIteration (Except.error msg) job rest).2.status ≠ JobStatus.failed) ∧
    (∀ msg, job.maxAttempts ≤ job.attempts + 1 →
      (processQueueIteration (Except.error msg) job rest).1 = rest ∧
      (processQueueIteration (Except.error msg) job rest).2.status = JobStatus.failed ∧
      (processQueueIteration (Except.error msg) job rest).2.error = some msg) ∧
    (∀ id, (mkJob id).maxAttempts = 3) := by
  refine ⟨⟨rfl, rfl⟩, fun msg => ?_, fun msg h => ?_, fun msg h => ?_, fun _ => rfl⟩
  · simp only [processQueueIteration]
    split <;> rfl
  · simp only [processQueueIteration]
    rw [if_neg (by simpa using Nat.not_le.mpr h)]
    exact ⟨rfl, by simp⟩
  · simp only [processQueueIteration]
    rw [if_pos (by simpa using h)]
    exact ⟨rfl, rfl, rfl⟩

/-- C1 counterexample: in the cited `MemoryQueue.processQueue` worker
loop, a fresh task whose function throws on its very first execution is
removed from the queue and permanently marked `'failed'` with the error
message — it is not re-appended at the tail, and no attempts counter
exists to stay below `maxAttempts`. -/
theorem memoryQueue_no_retry_counterexample :
    (memoryQueueIteration (Except.error "boom") (enqueueItem "task_1") []).1 = [] ∧
    (memoryQueueIteration (Except.error "boom") (enqueueItem "task_1") []).2.status =
      JobStatus.failed ∧
    (memoryQueueIteration (Except.error "boom") (enqueueItem "task_1") []).2.error =
      some "boom" :=
  ⟨rfl, rfl, rfl⟩

/-- C1 (amended): in the `SimpleQueue` worker loop a normal return marks
the job completed and removes it from the head, a throw leaves the
attempts counter incremented and either re-appends the job at the tail
(attempts still below `maxAttempts`, which `add` sets to 3) or removes
it and marks it permanently failed with the thrown message; in the
`MemoryQueue` worker loop there is no attempts counter: a normal return
marks the task completed, and a throw removes it and permanently marks
it failed with the error message on the first failure, never
re-enqueueing it. -/
theorem taskQueue_iteration_amended (job : Job) (rest : List Job)
    (item : QueueItem) (mrest : List QueueItem) :
    ((processQueueIteration (Except.ok ()) job rest).1 = rest ∧
      (processQueueIteration (Except.ok ()) job rest).2.status = JobStatus.completed) ∧
    (∀ msg, (processQueueIteration (Except.error msg) job rest).2.attempts = job.attempts + 1) ∧
    (∀ msg, job.attempts + 1 < job.maxAttempts →
      (processQueueIteration (Except.error msg) job rest).1 =
        rest ++ [(processQueueIteration (Except.error msg) job rest).2] ∧
      (processQueueIteration (Except.error msg) job rest).2.status ≠ JobStatus.failed) ∧
    (∀ msg, job.maxAttempts ≤ job.attempts + 1 →
      (processQueueIteration (Except.error msg) job rest).1 = rest ∧
      (processQueueIteration (Except.error msg) job rest).2.status = JobStatus.failed ∧
      (processQueueIteration (Except.error msg) job rest).2.error = some msg) ∧
    (∀ id, (mkJob id).maxAttempts = 3) ∧
    ((memoryQueueIteration (Except.ok ()) item mrest).1 = mrest ∧
      (memoryQueueIteration (Except.ok ()) item mrest).2.status = JobStatus.completed) ∧
    (∀ msg, (memoryQueueIteration (Except.error msg) item mrest).1 = mrest ∧
      (memoryQueueIteration (Except.error msg) item mrest).2.status = JobStatus.failed ∧
      (memoryQueueIteration (Except.error msg) item mrest).2.error = some msg) := by
  obtain ⟨h1, h2, h3, h4, h5⟩ := simpleQueue_iteration_spec job rest
  exact ⟨h1, h2, h3, h4, h5, ⟨rfl, rfl⟩, fun msg => ⟨rfl, rfl, rfl⟩⟩

theorem taskQueue_iteration_witness :
    (processQueueIteration (Except.error "boom") (mkJob "job_1") []).1 =
      [] ++ [(processQueueIteration (Except.error "boom") (mkJob "job_1") []).2] ∧
    (processQueueIteration (Except.error "boom") (mkJob "job_1") []).2.status ≠ JobStatus.failed :=
  ((taskQueue_iteration_amended (mkJob "job_1") [] (enqueueItem "task_2") []).2.2.1) "boom"
    (by decide)

/-- The guard-flag invariant of the worker loop: the number of
invocations inside the loop equals 1 when the flag is set and 0 when it
is clear. -/
theorem queueStep_invariant {a b : QueueState} (hstep : QueueStep a b)
    (ih : a.idleCalls + a.execCalls = (if a.processing then 1 else 0)) :
    b.idleCalls + b.execCalls = (if b.processing then 1 else 0) := by
  cases hstep with
  | bounce ht => exact ih
  | enter ht => simp [ht] at ih; simp; omega
  | start ht => cases hp : a.processing <;> simp [hp] at ih ⊢ <;> omega
  | finish ht => cases hp : a.processing <;> simp [hp] at ih ⊢ <;> omega
  | exitLoop ht => cases hp : a.processing <;> simp [hp] at ih ⊢ <;> omega

theorem queueReachable_invariant {s : QueueState} (h : QueueReachable s) :
    s.idleCalls + s.execCalls = (if s.processing then 1 else 0) := by
  induction h with
  | init => rfl
  | step hr hstep ih => exact queueStep_invariant hstep ih

/-- C2: in every reachable state of the queue module, at most one
invocation is inside the worker loop (so no two iterations run
concurrently), at most one task is executing, and when the `processing`
flag is clear no invocation is inside the loop at all — a call that sees
the flag set bounces off the guard without taking a task
(`QueueStep.bounce` leaves the state unchanged). -/
theorem queue_single_worker (s : QueueState) (h : QueueReachable s) :
    s.execCalls ≤ 1 ∧ s.idleCalls + s.execCalls ≤ 1 ∧
      (s.processing = false → s.idleCalls = 0 ∧ s.execCalls = 0) := by
  have inv := queueReachable_invariant h
  cases hp : s.processing <;> simp [hp] at inv ⊢ <;> omega

theorem queue_single_worker_witness :
    ({ processing := true, idleCalls := 0, execCalls := 1 } : QueueState).execCalls ≤ 1 ∧
    ({ processing := true, idleCalls := 0, execCalls := 1 } : QueueState).idleCalls +
      ({ processing := true, idleCalls := 0, execCalls := 1 } : QueueState).execCalls ≤ 1 ∧
    (({ processing := true, idleCalls := 0, execCalls := 1 } : QueueState).processing = false →
      ({ processing := true, idleCalls := 0, execCalls := 1 } : QueueState).idleCalls = 0 ∧
      ({ processing := true, idleCalls := 0, execCalls := 1 } : QueueState).execCalls = 0) :=
  queue_single_worker _
    (QueueReachable.step
      (QueueReachable.step QueueReachable.init (QueueStep.enter _ rfl))
      (QueueStep.start _ (by decide)))

/-- C5: whatever the outcomes of the download, the upload, the model
call and the JSON parse, the temp file is gone from the filesystem when
`analyzePDF` returns — the `finally` clause deletes it on the success
path and on every error path. -/
theorem analyzePDF_temp_cleanup (env : PdfEnv) (tempPath : String) (fs : List String) :
    decide (tempPath ∈ (analyzePDF env tempPath fs).2) = false := by
  simp only [decide_eq_false_iff_not, analyzePDF, cleanupFile]
  by_cases h : tempPath ∈ (analyzePDFBody env tempPath fs).2
  · rw [if_pos h]
    intro hmem
    simpa using (List.mem_filter.mp hmem).2
  · rw [if_neg h]
    exact h

/-- The chunking loop ignores attachments whose stat failed, from any
accumulator state. -/
theorem emailChunksGo_filter (maxSize : Nat) (atts : List Attachment) :
    ∀ chunks currentChunk currentSize,
      emailChunksGo maxSize chunks currentChunk currentSize atts =
        emailChunksGo maxSize chunks currentChunk currentSize
          (atts.filter (fun a => a.statSize.isSome)) := by
  induction atts with
  | nil => intro _ _ _; rfl
  | cons a rest ih =>
    intro chunks currentChunk currentSize
    cases hs : a.statSize with
    | none => simpa [emailChunksGo, hs] using ih chunks currentChunk currentSize
    | some fileSize =>
      by_cases hc : currentSize + fileSize > maxSize ∧ currentChunk ≠ [] <;>
        simp [emailChunksGo, hs, hc] <;> apply ih

/-- C10: an attachment whose `statSync` call throws is silently skipped
by the chunking loop (the error is caught and the loop continues), and
the remaining attachments are chunked exactly as if the unreadable file
were not in the input list. -/
theorem emailChunks_unreadable_excluded (attachments : List Attachment) (maxSize : Nat) :
    emailChunks attachments maxSize =
      emailChunks (attachments.filter (fun a => a.statSize.isSome)) maxSize :=
  emailChunksGo_filter maxSize attachments [] [] 0

/-- The per-field loop writes exactly the truthy-valued properties, in
table order, and reports exactly those properties. -/
theorem updatePropertiesGo_spec (writeResult : String → Option String)
    (l : List (String × Option String)) :
    (updatePropertiesGo writeResult l).2 =
      (l.filter (fun p => jsTruthy p.2)).map Prod.fst ∧
    (updatePropertiesGo writeResult l).1.map FieldUpdate.property =
      (l.filter (fun p => jsTruthy p.2)).map Prod.fst := by
  induction l with
  | nil => exact ⟨rfl, rfl⟩
  | cons p rest ih =>
    obtain ⟨pn, pv⟩ := p
    by_cases ht : jsTruthy pv
    · cases hw : writeResult pn <;>
        simp [updatePropertiesGo, ht, hw, List.filter_cons, ih.1, ih.2]
    · simp [updatePropertiesGo, ht, List.filter_cons, ih.1, ih.2]

/-- C9: a field whose extracted value is null/undefined/empty is neither
written to the CRM nor mentioned in the per-field report, and the
combined full name joins the truthy name parts with one space — with
only a last name present it equals the last name alone. -/
theorem updateIndividualProperties_spec (writeResult : String → Option String)
    (d : ExtractedData) :
    ((updateIndividualProperties writeResult d).2 =
      ((propertiesToUpdate d).filter (fun p => jsTruthy p.2)).map Prod.fst) ∧
    ((updateIndividualProperties writeResult d).1.map FieldUpdate.property =
      ((propertiesToUpdate d).filter (fun p => jsTruthy p.2)).map Prod.fst) ∧
    (∀ f l, d.firstName = some f → f ≠ "" → d.lastName = some l → l ≠ "" →
      fullNameOf d = f ++ " " ++ l) ∧
    (∀ l, jsTruthy d.firstName = false → d.lastName = some l → l ≠ "" →
      fullNameOf d = l) := by
  refine ⟨(updatePropertiesGo_spec writeResult _).1, (updatePropertiesGo_spec writeResult _).2,
    fun f l hf hfne hl hlne => ?_, fun l hfalsy hl hlne => ?_⟩
  · simp [fullNameOf, hf, hl, hfne, hlne, String.intercalate, String.intercalate.go]
  · rcases hfirst : d.firstName with _ | f
    · simp [fullNameOf, hfirst, hl, hlne, String.intercalate, String.intercalate.go]
    · have hf : f = "" := by
        by_contra hne
        simp [jsTruthy, hfirst, hne] at hfalsy
      simp [fullNameOf, hfirst, hf, hl, hlne, String.intercalate, String.intercalate.go]

theorem updateIndividualProperties_witness :
    fullNameOf
      { firstName := none, lastName := some "Muster", streetAddress := none,
        dateOfBirth := none, nationality := none, workPermitDate := none,
        workPermitType := none } = "Muster" :=
  (updateIndividualProperties_spec (fun _ => none)
      { firstName := none, lastName := some "Muster", streetAddress := none,
        dateOfBirth := none, nationality := none, workPermitDate := none,
        workPermitType := none }).2.2.2 "Muster" (by decide) rfl (by decide)

/-- C7: an inbound event array whose first element (if any) has no
`propertyValue` makes `processWebhookData` return the
`shouldReturn204` no-op outcome, raising nothing and invoking no
collaborator. -/
theorem webhook_missing_propertyValue_noop (env : OrchEnv)
    (webhookData : List InboundEvent)
    (h : webhookData = [] ∨
      ∃ event rest, webhookData = event :: rest ∧
        (event.propertyValue = none ∨ event.propertyValue = some "")) :
    processWebhookData env webhookData =
      (Except.ok { shouldReturn204 := true, success := false, message := "No propertyValue" },
        []) := by
  rcases h with h | ⟨event, rest, hcons, hpv⟩
  · simp [processWebhookData, h]
  · rcases hpv with hpv | hpv <;> simp [processWebhookData, hcons, hpv, jsTruthy]

theorem webhook_missing_propertyValue_witness :
    processWebhookData
      { signedUrlResult := Except.ok "https://files.example/a.pdf",
        fileTypeOf := fun _ => "pdf",
        analyzeResult := Except.error "model failed",
        errorLogOk := true, persistOk := true }
      [{ objectId := 7, propertyName := "file_id", propertyValue := none,
         subscriptionType := "contact.propertyChange" }] =
      (Except.ok { shouldReturn204 := true, success := false, message := "No propertyValue" },
        []) :=
  webhook_missing_propertyValue_noop _ _
    (Or.inr ⟨_, _, rfl, Or.inl rfl⟩)

/-- The size-skipping chunk loop emits, over all batches, exactly the
readable attachments that fit the ceiling, in input order. -/
theorem emailChunksSkipGo_flatten (maxSize : Nat) (atts : List Attachment) :
    ∀ chunks currentChunk currentSize,
      (emailChunksSkipGo maxSize chunks currentChunk currentSize atts).flatten =
        chunks.flatten ++ currentChunk ++
          atts.filter (fun a =>
            match a.statSize with
            | some fileSize => decide (fileSize ≤ maxSize)
            | none => false) := by
  induction atts with
  | nil =>
    intro chunks currentChunk currentSize
    by_cases hc : currentChunk = [] <;> simp [emailChunksSkipGo, hc]
  | cons a rest ih =>
    intro chunks currentChunk currentSize
    cases hs : a.statSize with
    | none => simp [emailChunksSkipGo, hs, ih]
    | some fileSize =>
      by_cases hbig : fileSize > maxSize
      · simp [emailChunksSkipGo, hs, hbig, Nat.not_le.mpr hbig, ih]
      · have hle : fileSize ≤ maxSize := Nat.not_lt.mp hbig
        by_cases hc : currentSize + fileSize > maxSize ∧ currentChunk ≠ [] <;>
          simp [emailChunksSkipGo, hs, hbig, hle, hc, ih]

/-- The src/services/email.js chunk loop (no oversize check) emits, over
all batches, exactly the readable attachments, in input order. -/
theorem emailChunksGo_flatten (maxSize : Nat) (atts : List Attachment) :
    ∀ chunks currentChunk currentSize,
      (emailChunksGo maxSize chunks currentChunk currentSize atts).flatten =
        chunks.flatten ++ currentChunk ++ atts.filter (fun a => a.statSize.isSome) := by
  induction atts with
  | nil =>
    intro chunks currentChunk currentSize
    by_cases hc : currentChunk = [] <;> simp [emailChunksGo, hc]
  | cons a rest ih =>
    intro chunks currentChunk currentSize
    cases hs : a.statSize with
    | none => simp [emailChunksGo, hs, ih]
    | some fileSize =>
      by_cases hc : currentSize + fileSize > maxSize ∧ currentChunk ≠ [] <;>
        simp [emailChunksGo, hs, hc, ih]

/-- Every batch the size-skipping loop emits stays within the ceiling,
provided the running chunk does. -/
theorem emailChunksSkipGo_bounded (maxSize : Nat) (atts : List Attachment) :
    ∀ chunks currentChunk currentSize,
      (∀ b ∈ chunks, chunkBytes b ≤ maxSize) →
      chunkBytes currentChunk = currentSize → currentSize ≤ maxSize →
      ∀ b ∈ emailChunksSkipGo maxSize chunks currentChunk currentSize atts,
        chunkBytes b ≤ maxSize := by
  induction atts with
  | nil =>
    intro chunks currentChunk currentSize hchunks hcur hle b hb
    by_cases hc : currentChunk = []
    · rw [emailChunksSkipGo, if_pos hc] at hb
      exact hchunks b hb
    · rw [emailChunksSkipGo, if_neg hc] at hb
      rcases List.mem_append.mp hb with h | h
      · exact hchunks b h
      · simp at h
        simpa [h, hcur] using hle
  | cons a rest ih =>
    intro chunks currentChunk currentSize hchunks hcur hle b hb
    cases hs : a.statSize with
    | none =>
      simp only [emailChunksSkipGo, hs] at hb
      exact ih chunks currentChunk currentSize hchunks hcur hle b hb
    | some fileSize =>
      simp only [emailChunksSkipGo, hs] at hb
      by_cases hbig : fileSize > maxSize
      · rw [if_pos hbig] at hb
        exact ih chunks currentChunk currentSize hchunks hcur hle b hb
      · have hfle : fileSize ≤ maxSize := Nat.not_lt.mp hbig
        rw [if_neg hbig] at hb
        by_cases hc : currentSize + fileSize > maxSize ∧ currentChunk ≠ []
        · rw [if_pos hc] at hb
          refine ih _ _ _ (fun c hcmem => ?_) (by simp [chunkBytes, hs]) hfle b hb
          rcases List.mem_append.mp hcmem with h | h
          · exact hchunks c h
          · simp at h
            simpa [h, hcur] using hle
        · rw [if_neg hc] at hb
          have hsum : currentSize + fileSize ≤ maxSize := by
            rcases Decidable.not_and_iff_or_not.mp hc with h | h
            · exact Nat.not_lt.mp h
            · have : currentChunk = [] := by
                by_contra hne
                exact h hne
              have hz : currentSize = 0 := by simpa [this, chunkBytes] using hcur.symm
              simpa [hz] using hfle
          refine ih _ _ _ hchunks ?_ hsum b hb
          simp only [chunkBytes, List.map_append, List.sum_append] at hcur ⊢
          simp [hcur, hs]

/-- C3 counterexample: in the src/services/email.js batcher an
attachment strictly larger than the 4MB ceiling is not skipped — it is
placed in a batch of its own, which therefore exceeds the ceiling. -/
theorem attachment_oversize_counterexample :
    5 * 1024 * 1024 > MAX_SIZE_PER_EMAIL ∧
    emailChunks [{ filename := "big.pdf", statSize := some (5 * 1024 * 1024) }]
        MAX_SIZE_PER_EMAIL =
      [[{ filename := "big.pdf", statSize := some (5 * 1024 * 1024) }]] := by
  constructor
  · decide
  · rfl

/-- C3 (amended): the part_003/part_004 batcher variants skip every
attachment larger than the ceiling (it appears in no batch), greedily
pack the remaining readable attachments in input order, and keep every
batch within the ceiling; the src/services/email.js variant instead
packs every readable attachment, oversized ones included. -/
theorem attachment_batcher_amended (attachments : List Attachment) (maxSize : Nat) :
    ((emailChunksSkip attachments maxSize).flatten =
      attachments.filter (fun a =>
        match a.statSize with
        | some fileSize => decide (fileSize ≤ maxSize)
        | none => false)) ∧
    (∀ batch ∈ emailChunksSkip attachments maxSize, chunkBytes batch ≤ maxSize) ∧
    ((emailChunks attachments maxSize).flatten =
      attachments.filter (fun a => a.statSize.isSome)) := by
  refine ⟨?_, ?_, ?_⟩
  · simpa using emailChunksSkipGo_flatten maxSize attachments [] [] 0
  · exact emailChunksSkipGo_bounded maxSize attachments [] [] 0 (by simp) rfl (Nat.zero_le _)
  · simpa using emailChunksGo_flatten maxSize attachments [] [] 0

theorem attachment_batcher_witness :
    chunkBytes [{ filename := "a.pdf", statSize := some 1048576 },
      { filename := "b.pdf", statSize := some 1048576 }] ≤ 2 * 1024 * 1024 :=
  (attachment_batcher_amended
      [{ filename := "a.pdf", statSize := some 1048576 },
       { filename := "b.pdf", statSize := some 1048576 },
       { filename := "c.pdf", statSize := some 3145728 },
       { filename := "d.pdf", statSize := some 524288 }]
      (2 * 1024 * 1024)).2.1
    [{ filename := "a.pdf", statSize := some 1048576 },
     { filename := "b.pdf", statSize := some 1048576 }]
    (by decide)

/-- Dropping from an append stops at the first element failing the
predicate. -/
theorem dw_append_cons (p : Char → Bool) (xs : List Char) (c : Char) (ys : List Char)
    (hc : p c = false) :
    (xs ++ c :: ys).dropWhile p = xs.dropWhile p ++ c :: ys := by
  induction xs with
  | nil => simp [List.dropWhile_cons, hc]
  | cons x xs ih =>
    by_cases hx : p x <;> simp [List.dropWhile_cons, hx, ih]

/-- A fence pattern starts with a backtick, so it cannot match at a
non-backtick character. -/
theorem startsWith_bt_false (ps : List Char) (c : Char) (cs : List Char) (hc : c ≠ bt) :
    startsWithChars (bt :: ps) (c :: cs) = false := by
  simp [startsWithChars]
  intro heq
  exact absurd heq.symm hc

/-- Fence replacement leaves backtick-free text unchanged. -/
theorem replaceFence_id (ps : List Char) :
    ∀ (fuel : Nat) (cs : List Char), btFree cs → replaceFence bt ps fuel cs = cs := by
  intro fuel
  induction fuel with
  | zero => intro cs _; rfl
  | succ f ih =>
    intro cs h
    cases cs with
    | nil => rfl
    | cons c cs' =>
      have hc : c ≠ bt := h c (List.mem_cons_self _ _)
      simp only [replaceFence, startsWith_bt_false _ _ _ hc, Bool.false_eq_true, if_false]
      exact congrArg (c :: ·) (ih cs' (fun x hx => h x (List.mem_cons_of_mem _ hx)))

/-- Fence replacement passes over a backtick-free prefix, spending one
unit of fuel per character. -/
theorem replaceFence_append (ps rest : List Char) :
    ∀ (s : List Char) (fuel : Nat), btFree s → s.length ≤ fuel →
      replaceFence bt ps fuel (s ++ rest) =
        s ++ replaceFence bt ps (fuel - s.length) rest := by
  intro s
  induction s with
  | nil => intro fuel _ _; simp
  | cons c s' ih =>
    intro fuel h hlen
    cases fuel with
    | zero => simp at hlen
    | succ f =>
      have hc : c ≠ bt := h c (List.mem_cons_self _ _)
      simp only [List.cons_append, replaceFence, startsWith_bt_false _ _ _ hc,
        Bool.false_eq_true, if_false]
      show c :: replaceFence bt ps f (s' ++ rest) = _
      rw [ih f (fun x hx => h x (List.mem_cons_of_mem _ hx)) (by simpa using hlen)]
      simp [Nat.succ_sub_succ]

theorem stripFences_id (cs : List Char) (h : btFree cs) : stripFences cs = cs := by
  unfold stripFences
  rw [replaceFence_id _ _ _ h, replaceFence_id _ _ _ h]

theorem headIs_decomp {c : Char} {s : List Char} (h : headIs c s = true) :
    ∃ t, s = c :: t := by
  cases s with
  | nil => simp [headIs] at h
  | cons x t =>
    simp [headIs] at h
    exact ⟨t, by rw [h]⟩

theorem lastIs_decomp {c : Char} {s : List Char} (h : lastIs c s = true) :
    ∃ t, s.reverse = c :: t :=
  headIs_decomp h

/-- Trimming prose wrapped around a brace-delimited core only trims the
wrapping. -/
theorem trimChars_decomp (pre s post : List Char)
    (hhead : headIs lbrace s = true) (hlast : lastIs rbrace s = true) :
    trimChars (pre ++ s ++ post) =
      pre.dropWhile isWs ++ s ++ (post.reverse.dropWhile isWs).reverse := by
  obtain ⟨s1, hs1⟩ := headIs_decomp hhead
  obtain ⟨s2, hs2⟩ := lastIs_decomp hlast
  have hwl : isWs lbrace = false := by decide
  have hwr : isWs rbrace = false := by decide
  unfold trimChars
  have h1 : (pre ++ s ++ post).dropWhile isWs = pre.dropWhile isWs ++ (s ++ post) := by
    rw [hs1, List.append_assoc]
    exact dw_append_cons isWs pre lbrace (s1 ++ post) hwl
  rw [h1]
  have h2 : (pre.dropWhile isWs ++ (s ++ post)).reverse =
      post.reverse ++ rbrace :: (s2 ++ (pre.dropWhile isWs).reverse) := by
    simp [List.reverse_append, hs2, List.append_assoc]
  rw [h2]
  rw [dw_append_cons isWs post.reverse rbrace (s2 ++ (pre.dropWhile isWs).reverse) hwr]
  have hsrev : s = s2.reverse ++ [rbrace] := by
    have := congrArg List.reverse hs2
    simpa using this
  simp [List.reverse_append, hsrev, List.append_assoc]

/-- The greedy brace-span regex recovers a brace-delimited core out of
wrapping that contains no brace of its own. -/
theorem extractBraces_mid (pre s post : List Char)
    (hpre : ∀ c ∈ pre, c ≠ lbrace) (hpost : ∀ c ∈ post, c ≠ rbrace)
    (hhead : headIs lbrace s = true) (hlast : lastIs rbrace s = true) :
    extractBraces (pre ++ s ++ post) = some s := by
  obtain ⟨s1, hs1⟩ := headIs_decomp hhead
  obtain ⟨s2, hs2⟩ := lastIs_decomp hlast
  have h1 : (pre ++ s ++ post).dropWhile (· ≠ lbrace) = s ++ post := by
    rw [hs1, List.append_assoc, List.cons_append]
    rw [dw_append_cons (fun x => decide (x ≠ lbrace)) pre lbrace (s1 ++ post) (by simp)]
    rw [List.dropWhile_eq_nil_iff.mpr (by simpa using hpre)]
    simp
  have h2 : (s ++ post).reverse.dropWhile (· ≠ rbrace) = rbrace :: s2 := by
    rw [List.reverse_append, hs2]
    rw [dw_append_cons (fun x => decide (x ≠ rbrace)) post.reverse rbrace s2 (by simp)]
    rw [List.dropWhile_eq_nil_iff.mpr (by simp; intro x hx; exact hpost x hx)]
    simp
  have hs : s = s2.reverse ++ [rbrace] := by
    have := congrArg List.reverse hs2
    simpa using this
  have hs1ne : s1 ≠ [] := by
    intro hnil
    rw [hs1, hnil] at hs2
    simp at hs2
    exact absurd hs2.1 (by decide)
  obtain ⟨y, s1', hy⟩ : ∃ y s1', s1 = y :: s1' := by
    cases s1 with
    | nil => exact absurd rfl hs1ne
    | cons y s1' => exact ⟨y, s1', rfl⟩
  unfold extractBraces
  rw [h1, h2]
  have h3 : (rbrace :: s2).reverse = s := by rw [hs]; simp
  rw [h3, hs1, hy]

/-- The cleaning pipeline of part_007 maps prose-wrapped,
backtick-free, brace-delimited text to exactly its brace-delimited
core. -/
theorem cleanResponse_recovers (pre s post : List Char)
    (hpreb : btFree pre) (hsb : btFree s) (hpostb : btFree post)
    (hpre : braceFree pre) (hpost : braceFree post)
    (hhead : headIs lbrace s = true) (hlast : lastIs rbrace s = true) :
    cleanJSONResponse (String.mk (pre ++ s ++ post)) = Except.ok (String.mk s) := by
  obtain ⟨s1, hs1⟩ := headIs_decomp hhead
  have hsne : s ≠ [] := by rw [hs1]; simp
  have hne : String.mk (pre ++ s ++ post) ≠ "" := by
    intro h
    have hdata := congrArg String.data h
    simp at hdata
    exact hsne hdata.2.1
  have hall : btFree (pre ++ s ++ post) := by
    intro c hc
    rcases List.mem_append.mp hc with h | h
    · rcases List.mem_append.mp h with h | h
      · exact hpreb c h
      · exact hsb c h
    · exact hpostb c h
  have hpremem : ∀ c ∈ pre.dropWhile isWs, c ∈ pre :=
    fun c hc => (List.dropWhile_sublist _).subset hc
  have hpostmem : ∀ c ∈ (post.reverse.dropWhile isWs).reverse, c ∈ post := by
    intro c hc
    have h1 : c ∈ post.reverse.dropWhile isWs := by simpa using hc
    have h2 : c ∈ post.reverse := (List.dropWhile_sublist _).subset h1
    simpa using h2
  unfold cleanJSONResponse
  rw [if_neg hne]
  rw [show (String.mk (pre ++ s ++ post)).data = pre ++ s ++ post from rfl]
  rw [stripFences_id _ hall]
  rw [trimChars_decomp pre s post hhead hlast]
  by_cases hp : pre.dropWhile isWs = [] ∧ (post.reverse.dropWhile isWs).reverse = []
  · rw [hp.1, hp.2]
    simp only [List.nil_append, List.append_nil]
    rw [if_neg (by simp [hhead, hlast])]
  · have hnd : ¬(headIs lbrace (pre.dropWhile isWs ++ s ++ (post.reverse.dropWhile isWs).reverse) = true ∧
        lastIs rbrace (pre.dropWhile isWs ++ s ++ (post.reverse.dropWhile isWs).reverse) = true) := by
      rcases Decidable.not_and_iff_or_not.mp hp with hne' | hne'
      · obtain ⟨c, t, hct⟩ : ∃ c t, pre.dropWhile isWs = c :: t := by
          cases hcase : pre.dropWhile isWs with
          | nil => exact absurd hcase hne'
          | cons c t => exact ⟨c, t, rfl⟩
        have hc : c ≠ lbrace := (hpre c (hpremem c (by rw [hct]; simp))).1
        intro hcontra
        have := hcontra.1
        rw [hct] at this
        simp [headIs, List.cons_append] at this
        exact hc this
      · obtain ⟨c, t, hct⟩ : ∃ c t, post.reverse.dropWhile isWs = c :: t := by
          cases hcase : post.reverse.dropWhile isWs with
          | nil => exact absurd (by rw [hcase]; rfl) hne'
          | cons c t => exact ⟨c, t, rfl⟩
        have hc : c ≠ rbrace := by
          refine (hpost c (hpostmem c ?_)).2
          rw [hct]
          simp
        intro hcontra
        have hl := hcontra.2
        rw [lastIs] at hl
        rw [show (pre.dropWhile isWs ++ s ++ (post.reverse.dropWhile isWs).reverse) =
            ((pre.dropWhile isWs ++ s) ++ (post.reverse.dropWhile isWs).reverse) from by
          simp [List.append_assoc]] at hl
        rw [List.reverse_append] at hl
        rw [List.reverse_reverse, hct] at hl
        simp [headIs] at hl
        exact hc hl
    rw [if_pos hnd]
    rw [extractBraces_mid (pre.dropWhile isWs) s ((post.reverse.dropWhile isWs).reverse)
      (fun c hc => (hpre c (hpremem c hc)).1)
      (fun c hc => (hpost c (hpostmem c hc)).2) hhead hlast]

theorem replaceFence_cons_match (p : Char) (ps : List Char) (fuel : Nat) (c : Char)
    (cs : List Char) (h : startsWithChars (p :: ps) (c :: cs) = true) :
    replaceFence p ps (fuel + 1) (c :: cs) =
      replaceFence p ps fuel ((cs.drop ps.length).dropWhile isWs) := by
  simp only [replaceFence, h, if_true]

/-- The cleaning pipeline strips a ```json fence wrapped around
backtick-free brace-delimited text. -/
theorem cleanResponse_fenced (s : List Char)
    (hsb : btFree s) (hhead : headIs lbrace s = true) (hlast : lastIs rbrace s = true) :
    cleanJSONResponse
        (String.mk ([bt, bt, bt, 'j', 's', 'o', 'n', '\n'] ++ s ++ ['\n', bt, bt, bt])) =
      Except.ok (String.mk s) := by
  obtain ⟨s1, hs1⟩ := headIs_decomp hhead
  have hne : String.mk ([bt, bt, bt, 'j', 's', 'o', 'n', '\n'] ++ s ++ ['\n', bt, bt, bt]) ≠ "" := by
    intro h
    have hdata := congrArg String.data h
    simp at hdata
  have hdws : List.dropWhile isWs (s ++ ['\n', bt, bt, bt]) = s ++ ['\n', bt, bt, bt] := by
    rw [hs1]
    rw [List.cons_append, List.dropWhile_cons]
    rw [if_neg (by decide)]
  have hstrip : stripFences ([bt, bt, bt, 'j', 's', 'o', 'n', '\n'] ++ s ++ ['\n', bt, bt, bt]) =
      s ++ ['\n'] := by
    unfold stripFences
    have hlen : ([bt, bt, bt, 'j', 's', 'o', 'n', '\n'] ++ s ++ ['\n', bt, bt, bt]).length
        = s.length + 12 := by
      simp only [List.length_append, List.length_cons, List.length_nil]
      omega
    rw [hlen]
    have hshape : ([bt, bt, bt, 'j', 's', 'o', 'n', '\n'] ++ s ++ ['\n', bt, bt, bt])
        = bt :: (bt :: bt :: 'j' :: 's' :: 'o' :: 'n' :: '\n' :: (s ++ ['\n', bt, bt, bt])) := by
      simp
    rw [hshape]
    rw [replaceFence_cons_match bt [bt, bt, 'j', 's', 'o', 'n'] (s.length + 11) bt _
      (by simp [startsWithChars])]
    have hdrop : ((bt :: bt :: 'j' :: 's' :: 'o' :: 'n' :: '\n' :: (s ++ ['\n', bt, bt, bt])).drop
        ([bt, bt, 'j', 's', 'o', 'n'] : List Char).length) = '\n' :: (s ++ ['\n', bt, bt, bt]) := rfl
    rw [hdrop]
    rw [List.dropWhile_cons]
    simp only [show isWs '\n' = true from by decide, if_true]
    rw [hdws]
    rw [replaceFence_append [bt, bt, 'j', 's', 'o', 'n'] ['\n', bt, bt, bt] s (s.length + 11) hsb
      (by omega)]
    rw [show s.length + 11 - s.length = 11 from by omega]
    rw [show replaceFence bt [bt, bt, 'j', 's', 'o', 'n'] 11 ['\n', bt, bt, bt]
        = ['\n', bt, bt, bt] from by decide]
    rw [show (s ++ ['\n', bt, bt, bt]).length = s.length + 4 from by simp]
    rw [replaceFence_append [bt, bt] ['\n', bt, bt, bt] s (s.length + 4) hsb (by omega)]
    rw [show s.length + 4 - s.length = 4 from by omega]
    rw [show replaceFence bt [bt, bt] 4 ['\n', bt, bt, bt] = ['\n'] from by decide]
  unfold cleanJSONResponse
  rw [if_neg hne]
  rw [show (String.mk ([bt, bt, bt, 'j', 's', 'o', 'n', '\n'] ++ s ++ ['\n', bt, bt, bt])).data
      = [bt, bt, bt, 'j', 's', 'o', 'n', '\n'] ++ s ++ ['\n', bt, bt, bt] from rfl]
  rw [hstrip]
  have htrim : trimChars (s ++ ['\n']) = s := by
    have hd := trimChars_decomp [] s ['\n'] hhead hlast
    rw [show (['\n'] : List Char).reverse = (['\n'] : List Char) from rfl] at hd
    rw [show List.dropWhile isWs ['\n'] = ([] : List Char) from by decide] at hd
    simpa using hd
  rw [htrim]
  rw [if_neg (by simp [hhead, hlast])]

/-- C6 counterexample: the response `["a {", "b }"]` is valid JSON, so
the spec's attempt (a) — a direct parse — succeeds; the adapter
nevertheless fails on it, because it never attempts a direct parse: it
regex-extracts the greedy brace span `{", "b }` out of the (fence-free)
text and makes its single parse attempt on that. -/
theorem cleanJSON_counterexample :
    (specThreeStage "[\"a \x7b\", \"b \x7d\"]").isSome = true ∧
    (parseModelResponse "[\"a \x7b\", \"b \x7d\"]").isOk = false := by
  constructor
  · decide
  · decide

/-- C6 (amended): the adapter makes exactly one parse attempt, on the
cleaned response: an empty response fails; stripping the ```json fence
from a fenced brace-delimited response, or extracting the brace span out
of backtick- and brace-free prose wrapping, recovers exactly the
brace-delimited core, and the adapter returns precisely the result of
parsing that core — no direct parse of the raw response is attempted
first. -/
theorem cleanJSON_single_attempt (pre s post : List Char)
    (hpreb : btFree pre) (hsb : btFree s) (hpostb : btFree post)
    (hpre : braceFree pre) (hpost : braceFree post)
    (hhead : headIs lbrace s = true) (hlast : lastIs rbrace s = true) :
    parseModelResponse "" = Except.error "Invalid JSON response from image analysis" ∧
    parseModelResponse (String.mk (pre ++ s ++ post)) =
      exceptOfParse (jsonParse (String.mk s)) ∧
    parseModelResponse
        (String.mk ([bt, bt, bt, 'j', 's', 'o', 'n', '\n'] ++ s ++ ['\n', bt, bt, bt])) =
      exceptOfParse (jsonParse (String.mk s)) := by
  refine ⟨rfl, ?_, ?_⟩
  · unfold parseModelResponse
    rw [cleanResponse_recovers pre s post hpreb hsb hpostb hpre hpost hhead hlast]
    cases h : jsonParse (String.mk s) <;> simp [exceptOfParse, h]
  · unfold parseModelResponse
    rw [cleanResponse_fenced s hsb hhead hlast]
    cases h : jsonParse (String.mk s) <;> simp [exceptOfParse, h]

theorem cleanJSON_single_attempt_witness :
    parseModelResponse "" = Except.error "Invalid JSON response from image analysis" ∧
    parseModelResponse (String.mk ("Result: ".data ++ "\x7b\x7d".data ++ " ok".data)) =
      exceptOfParse (jsonParse (String.mk "\x7b\x7d".data)) ∧
    parseModelResponse
        (String.mk ([bt, bt, bt, 'j', 's', 'o', 'n', '\n'] ++ "\x7b\x7d".data ++
          ['\n', bt, bt, bt])) =
      exceptOfParse (jsonParse (String.mk "\x7b\x7d".data)) :=
  cleanJSON_single_attempt "Result: ".data "\x7b\x7d".data " ok".data
    (by decide : ∀ c ∈ "Result: ".data, c ≠ bt)
    (by decide : ∀ c ∈ "\x7b\x7d".data, c ≠ bt)
    (by decide : ∀ c ∈ " ok".data, c ≠ bt)
    (by decide : ∀ c ∈ "Result: ".data, c ≠ lbrace ∧ c ≠ rbrace)
    (by decide : ∀ c ∈ " ok".data, c ≠ lbrace ∧ c ≠ rbrace)
    (by decide) (by decide)

end DocData
